import Mathlib

/-!
Verification of the Connect 4 engine (`Projet_connect4_AI.py`): board
representation, move generation, win detection, heuristic evaluation and
alpha-beta search.  The grid is modelled as a total function
`Nat → Nat → Nat` (column, row — row 0 is the bottom, mirroring
`self.grid[col][row]`); only indices `c < 7`, `r < 6` are touched by the
operations, exactly as in the source.  Cell values: 0 empty, 1 and 2 the
players.  Search scores, which in the source mix Python ints with
`float('-inf')`/`float('inf')`, are modelled by `WithBot (WithTop Int)`.
-/

def Grid : Type := Nat → Nat → Nat

def emptyGrid : Grid := fun _ _ => 0

/-- `Board.eval_window`: score of a 4-cell window for `player`
(counts of the player's, the opponent's and the empty cells). -/
def eval_window (window : List Nat) (player : Nat) : Int :=
  let opponent := 3 - player
  if window.count player = 4 then 10000
  else if window.count opponent = 4 then -10000
  else if window.count player = 3 ∧ window.count 0 = 1 then 20
  else if window.count opponent = 3 ∧ window.count 0 = 1 then -20
  else 0

/-- The fixed 6×7 positional table of `Board.eval`, indexed `[row][col]`. -/
def evaluation_table : List (List Int) :=
  [[3, 4, 5, 7, 5, 4, 3],
   [4, 6, 8, 10, 8, 6, 4],
   [5, 8, 11, 13, 11, 8, 5],
   [5, 8, 11, 13, 11, 8, 5],
   [4, 6, 8, 10, 8, 6, 4],
   [3, 4, 5, 7, 5, 4, 3]]

def tableAt (row col : Nat) : Int := (evaluation_table.getD row []).getD col 0

/-- Horizontal window `grid[col:col+4, row]`. -/
def hWindow (g : Grid) (col row : Nat) : List Nat :=
  [g col row, g (col + 1) row, g (col + 2) row, g (col + 3) row]

/-- Vertical window `grid[col, row:row+4]`. -/
def vWindow (g : Grid) (col row : Nat) : List Nat :=
  [g col row, g col (row + 1), g col (row + 2), g col (row + 3)]

/-- Ascending diagonal window `[grid[col+i][row+i] for i in range(4)]`. -/
def d1Window (g : Grid) (col row : Nat) : List Nat :=
  [g col row, g (col + 1) (row + 1), g (col + 2) (row + 2), g (col + 3) (row + 3)]

/-- Descending diagonal window `[grid[col+i][row-i] for i in range(4)]`. -/
def d2Window (g : Grid) (col row : Nat) : List Nat :=
  [g col row, g (col + 1) (row - 1), g (col + 2) (row - 2), g (col + 3) (row - 3)]

/-- `Board.eval`: the sum of the four window scans (horizontal, vertical,
both diagonals, over exactly the loop ranges of the source) plus the
central-positioning term. -/
def eval (g : Grid) (player : Nat) : Int :=
  let opponent := 3 - player
  (∑ row ∈ Finset.range 6, ∑ col ∈ Finset.range 4,
      eval_window (hWindow g col row) player)
  + (∑ col ∈ Finset.range 7, ∑ row ∈ Finset.range 3,
      eval_window (vWindow g col row) player)
  + (∑ col ∈ Finset.range 4, ∑ row ∈ Finset.range 3,
      eval_window (d1Window g col row) player)
  + (∑ col ∈ Finset.range 4, ∑ row ∈ Finset.range 3,
      eval_window (d2Window g col (row + 3)) player)
  + (∑ row ∈ Finset.range 6, ∑ col ∈ Finset.range 7,
      if g col row = player then tableAt row col
      else if g col row = opponent then -(tableAt row col)
      else 0)

def updateCell (g : Grid) (c r v : Nat) : Grid :=
  fun c' r' => if c' = c ∧ r' = r then v else g c' r'

/-- `Board.add_disk` (with `update_display=False`): put `player` in the first
empty row of `column`, scanning rows 0..5 bottom-up; no cell is written when
the column has no empty row (the Python loop then just runs out). -/
def add_disk (g : Grid) (column player : Nat) : Grid :=
  if g column 0 = 0 then updateCell g column 0 player
  else if g column 1 = 0 then updateCell g column 1 player
  else if g column 2 = 0 then updateCell g column 2 player
  else if g column 3 = 0 then updateCell g column 3 player
  else if g column 4 = 0 then updateCell g column 4 player
  else if g column 5 = 0 then updateCell g column 5 player
  else g

/-- `Board.column_filled`: the top cell of the column is occupied. -/
def column_filled (g : Grid) (column : Nat) : Bool :=
  decide (g column 5 ≠ 0)

/-- `Board.get_possible_moves`: center column first, then alternating
outward (shift 1, 2, 3), keeping the columns whose top cell is empty. -/
def get_possible_moves (g : Grid) : List Nat :=
  (if g 3 5 = 0 then [3] else [])
    ++ (if g 4 5 = 0 then [4] else []) ++ (if g 2 5 = 0 then [2] else [])
    ++ (if g 5 5 = 0 then [5] else []) ++ (if g 1 5 = 0 then [1] else [])
    ++ (if g 6 5 = 0 then [6] else []) ++ (if g 0 5 = 0 then [0] else [])

/-- `Board.check_victory`: the source's three scan loops (horizontal,
vertical, then the combined ascending/descending diagonal loop). -/
def check_victory (g : Grid) : Bool :=
  ((List.range 6).any fun line => (List.range 4).any fun hs =>
    decide (g hs line = g (hs + 1) line ∧ g (hs + 1) line = g (hs + 2) line
      ∧ g (hs + 2) line = g (hs + 3) line ∧ g (hs + 3) line ≠ 0))
  || ((List.range 7).any fun column => (List.range 3).any fun vs =>
    decide (g column vs = g column (vs + 1) ∧ g column (vs + 1) = g column (vs + 2)
      ∧ g column (vs + 2) = g column (vs + 3) ∧ g column (vs + 3) ≠ 0))
  || ((List.range 4).any fun hs => (List.range 3).any fun vs =>
    decide (g hs vs = g (hs + 1) (vs + 1) ∧ g (hs + 1) (vs + 1) = g (hs + 2) (vs + 2)
      ∧ g (hs + 2) (vs + 2) = g (hs + 3) (vs + 3) ∧ g (hs + 3) (vs + 3) ≠ 0)
    || decide (g hs (5 - vs) = g (hs + 1) (4 - vs) ∧ g (hs + 1) (4 - vs) = g (hs + 2) (3 - vs)
      ∧ g (hs + 2) (3 - vs) = g (hs + 3) (2 - vs) ∧ g (hs + 3) (2 - vs) ≠ 0))

/-- Number of occupied cells of a column ("occupied height"). -/
def colHeight (g : Grid) (c : Nat) : Nat :=
  (List.range 6).countP fun r => decide (g c r ≠ 0)

/-! ### Search scores

`alpha_beta` mixes integer evaluations with `float('-inf')` / `float('inf')`
(the initial `alpha`/`beta` and the initial loop accumulators), so scores
live in `Int` extended with both infinities. -/

abbrev Score := WithBot (WithTop Int)

def intScore (n : Int) : Score := ((n : WithTop Int) : Score)

/-- Maximizing-branch loop of `alpha_beta`: strict-improvement tie-break,
`alpha = max(alpha, value)`, beta cutoff once `beta <= alpha`. -/
def abMaxLoop (f : Grid → Score → Score → Score × Option Nat)
    (g : Grid) (cp : Nat) (beta : Score) :
    List Nat → Score → Score → Option Nat → Score × Option Nat
  | [], _, maxv, best => (maxv, best)
  | m :: rest, alpha, maxv, best =>
    let value := (f (add_disk g m cp) alpha beta).1
    let maxv' := if maxv < value then value else maxv
    let best' := if maxv < value then some m else best
    let alpha' := max alpha value
    if beta ≤ alpha' then (maxv', best')
    else abMaxLoop f g cp beta rest alpha' maxv' best'

/-- Minimizing-branch loop of `alpha_beta`: the disk is added for the
opponent `3 - current_player`, `beta = min(beta, value)`, alpha cutoff. -/
def abMinLoop (f : Grid → Score → Score → Score × Option Nat)
    (g : Grid) (cp : Nat) (alpha : Score) :
    List Nat → Score → Score → Option Nat → Score × Option Nat
  | [], _, minv, best => (minv, best)
  | m :: rest, beta, minv, best =>
    let value := (f (add_disk g m (3 - cp)) alpha beta).1
    let minv' := if value < minv then value else minv
    let best' := if value < minv then some m else best
    let beta' := min beta value
    if beta' ≤ alpha then (minv', best')
    else abMinLoop f g cp alpha rest beta' minv' best'

/-- `alpha_beta`, structured on the depth.  The single-move check comes
first (even at depth 0), then the depth-0/victory evaluation, then the
pruned maximizing/minimizing loop.  The source's unused `turn` parameter is
carried by the `alpha_beta` wrapper below. -/
def alpha_beta_aux : Nat → Grid → Score → Score → Nat → Bool → Score × Option Nat
  | 0, g, _, _, cp, _ =>
    if (get_possible_moves g).length = 1 then
      (intScore (eval g cp), (get_possible_moves g).head?)
    else (intScore (eval g cp), none)
  | d + 1, g, alpha, beta, cp, maxi =>
    if (get_possible_moves g).length = 1 then
      (intScore (eval g cp), (get_possible_moves g).head?)
    else if check_victory g then (intScore (eval g cp), none)
    else if maxi then
      abMaxLoop (fun g' a b => alpha_beta_aux d g' a b cp false) g cp beta
        (get_possible_moves g) alpha ⊥ none
    else
      abMinLoop (fun g' a b => alpha_beta_aux d g' a b cp true) g cp alpha
        (get_possible_moves g) beta ⊤ none

/-- `alpha_beta(board, turn, depth, alpha, beta, current_player,
maximizing_player)` with the source's argument order (`turn` is unused in
the source and here). -/
def alpha_beta (g : Grid) (_turn depth : Nat) (alpha beta : Score)
    (current_player : Nat) (maximizing_player : Bool) : Score × Option Nat :=
  alpha_beta_aux depth g alpha beta current_player maximizing_player

/-- `alpha_beta_decision`: the root call with `alpha = -inf`, `beta = +inf`,
maximizing. -/
def alpha_beta_decision (g : Grid) (turn ai_level max_player : Nat) :
    Option Nat :=
  (alpha_beta g turn ai_level ⊥ ⊤ max_player true).2

/-! ### Exhaustive minimax (claim side of C1)

The same recursion with the pruning cutoffs removed: same move order, same
terminal cases, same strict-improvement tie-break, but every move of every
node is explored and no `alpha`/`beta` is threaded. -/

def mmMaxLoop (f : Grid → Score × Option Nat) (g : Grid) (cp : Nat) :
    List Nat → Score → Option Nat → Score × Option Nat
  | [], maxv, best => (maxv, best)
  | m :: rest, maxv, best =>
    let value := (f (add_disk g m cp)).1
    if maxv < value then mmMaxLoop f g cp rest value (some m)
    else mmMaxLoop f g cp rest maxv best

def mmMinLoop (f : Grid → Score × Option Nat) (g : Grid) (cp : Nat) :
    List Nat → Score → Option Nat → Score × Option Nat
  | [], minv, best => (minv, best)
  | m :: rest, minv, best =>
    let value := (f (add_disk g m (3 - cp))).1
    if value < minv then mmMinLoop f g cp rest value (some m)
    else mmMinLoop f g cp rest minv best

def minimax_aux : Nat → Grid → Nat → Bool → Score × Option Nat
  | 0, g, cp, _ =>
    if (get_possible_moves g).length = 1 then
      (intScore (eval g cp), (get_possible_moves g).head?)
    else (intScore (eval g cp), none)
  | d + 1, g, cp, maxi =>
    if (get_possible_moves g).length = 1 then
      (intScore (eval g cp), (get_possible_moves g).head?)
    else if check_victory g then (intScore (eval g cp), none)
    else if maxi then
      mmMaxLoop (fun g' => minimax_aux d g' cp false) g cp
        (get_possible_moves g) ⊥ none
    else
      mmMinLoop (fun g' => minimax_aux d g' cp true) g cp
        (get_possible_moves g) ⊤ none

/-! ### Claim-side definitions -/

/-- Claim-side scoring of one 4-cell window (C4's wording): +10000 when all
four cells belong to the player, -10000 when all four belong to the
opponent, ±20 when exactly three belong to one side and the fourth cell is
empty, 0 otherwise. -/
def window_score_spec (a b c d p : Nat) : Int :=
  let o := 3 - p
  if a = p ∧ b = p ∧ c = p ∧ d = p then 10000
  else if a = o ∧ b = o ∧ c = o ∧ d = o then -10000
  else if [a, b, c, d].count p = 3 ∧ [a, b, c, d].count 0 = 1 then 20
  else if [a, b, c, d].count o = 3 ∧ [a, b, c, d].count 0 = 1 then -20
  else 0

/-- Claim-side line component: every contiguous 4-cell window of each of the
four orientations, each counted exactly once (horizontal windows start at
`col ≤ 3`, vertical at `row ≤ 2`, ascending diagonals at `col ≤ 3, row ≤ 2`,
descending diagonals at `col ≤ 3, 3 ≤ row ≤ 5`). -/
def line_score_spec (g : Grid) (p : Nat) : Int :=
  (∑ row ∈ Finset.range 6, ∑ col ∈ Finset.range 4,
      window_score_spec (g col row) (g (col + 1) row) (g (col + 2) row)
        (g (col + 3) row) p)
  + (∑ col ∈ Finset.range 7, ∑ row ∈ Finset.range 3,
      window_score_spec (g col row) (g col (row + 1)) (g col (row + 2))
        (g col (row + 3)) p)
  + (∑ col ∈ Finset.range 4, ∑ row ∈ Finset.range 3,
      window_score_spec (g col row) (g (col + 1) (row + 1))
        (g (col + 2) (row + 2)) (g (col + 3) (row + 3)) p)
  + (∑ col ∈ Finset.range 4, ∑ row ∈ Finset.range 3,
      window_score_spec (g col (row + 3)) (g (col + 1) (row + 2))
        (g (col + 2) (row + 1)) (g (col + 3) row) p)

/-- Claim-side positional component: the fixed table weight of each cell,
added when the cell is owned by the player and subtracted when owned by the
opponent. -/
def pos_score_spec (g : Grid) (p : Nat) : Int :=
  ∑ row ∈ Finset.range 6, ∑ col ∈ Finset.range 7,
    ((if g col row = p then tableAt row col else 0)
      - (if g col row = 3 - p then tableAt row col else 0))

/-- Claim-side win predicate (C6): some four contiguous cells in one of the
four orientations are all equal and all non-empty. -/
def hasLine (g : Grid) : Prop :=
  (∃ c r, c ≤ 3 ∧ r ≤ 5 ∧ g c r = g (c + 1) r ∧ g (c + 1) r = g (c + 2) r
    ∧ g (c + 2) r = g (c + 3) r ∧ g (c + 3) r ≠ 0)
  ∨ (∃ c r, c ≤ 6 ∧ r ≤ 2 ∧ g c r = g c (r + 1) ∧ g c (r + 1) = g c (r + 2)
    ∧ g c (r + 2) = g c (r + 3) ∧ g c (r + 3) ≠ 0)
  ∨ (∃ c r, c ≤ 3 ∧ r ≤ 2 ∧ g c r = g (c + 1) (r + 1)
    ∧ g (c + 1) (r + 1) = g (c + 2) (r + 2)
    ∧ g (c + 2) (r + 2) = g (c + 3) (r + 3) ∧ g (c + 3) (r + 3) ≠ 0)
  ∨ (∃ c r, c ≤ 3 ∧ 3 ≤ r ∧ r ≤ 5 ∧ g c r = g (c + 1) (r - 1)
    ∧ g (c + 1) (r - 1) = g (c + 2) (r - 2)
    ∧ g (c + 2) (r - 2) = g (c + 3) (r - 3) ∧ g (c + 3) (r - 3) ≠ 0)

/-- The fixed center-out column order of C7. -/
def centerOutOrder : List Nat := [3, 4, 2, 5, 1, 6, 0]

/-! ### Class-attribute aliasing model (C10)

`Board.grid` is a class-level numpy array.  A Python `Board()` instance has
no instance attribute `grid`, so attribute lookup falls back to the class
array; only `Board.copy` assigns a fresh per-instance array
(`new_board.grid = self.grid.copy()`).  We model the mutable arrays by a
store (list of grids, index = array identity); index 0 is the class array,
and a board is just an optional instance-attribute index. -/

structure PyBoard where
  ownGrid : Option Nat
deriving DecidableEq

abbrev Store := List Grid

/-- The store at program start: only the class array, zero-filled. -/
def initStore : Store := [emptyGrid]

/-- Attribute lookup `self.grid`: the instance attribute if present, else
the class attribute (array 0). -/
def gridRef (b : PyBoard) : Nat := b.ownGrid.getD 0

def readGrid (s : Store) (b : PyBoard) : Grid := s.getD (gridRef b) emptyGrid

/-- `Board()`: no `__init__`, so no instance attribute is created. -/
def board_new : PyBoard := ⟨none⟩

/-- `Board.copy`: a fresh array holding a copy of this board's grid becomes
the new board's instance attribute. -/
def board_copy (s : Store) (b : PyBoard) : Store × PyBoard :=
  (s ++ [readGrid s b], ⟨some s.length⟩)

/-- `Board.add_disk` through a board reference: mutates in place the array
the board's `grid` attribute resolves to. -/
def board_add_disk (s : Store) (b : PyBoard) (c p : Nat) : Store :=
  s.set (gridRef b) (add_disk (readGrid s b) c p)

def board_moves (s : Store) (b : PyBoard) : List Nat :=
  get_possible_moves (readGrid s b)

def board_eval (s : Store) (b : PyBoard) (p : Nat) : Int :=
  eval (readGrid s b) p

def board_victory (s : Store) (b : PyBoard) : Bool :=
  check_victory (readGrid s b)
/-! ### Helper lemmas -/

theorem gpm_filter (g : Grid) :
    get_possible_moves g = centerOutOrder.filter fun c => decide (g c 5 = 0) := by
  simp only [get_possible_moves, centerOutOrder, List.filter]
  by_cases h3 : g 3 5 = 0 <;> by_cases h4 : g 4 5 = 0 <;> by_cases h2 : g 2 5 = 0 <;>
    by_cases h5 : g 5 5 = 0 <;> by_cases h1 : g 1 5 = 0 <;> by_cases h6 : g 6 5 = 0 <;>
    by_cases h0 : g 0 5 = 0 <;> simp [h0, h1, h2, h3, h4, h5, h6]

theorem mem_centerOutOrder (c : Nat) : c ∈ centerOutOrder ↔ c < 7 := by
  constructor
  · intro h
    fin_cases h <;> omega
  · intro h
    interval_cases c <;> simp [centerOutOrder]

/-- C7: `get_possible_moves` is exactly the non-full columns (top cell of the
column empty) in the fixed center-out order `3,4,2,5,1,6,0`, and is empty
iff all seven columns are full. -/
theorem get_possible_moves_correct (g : Grid) :
    get_possible_moves g = (centerOutOrder.filter fun c => decide (g c 5 = 0))
      ∧ (get_possible_moves g = [] ↔ ∀ c < 7, g c 5 ≠ 0) := by
  refine ⟨gpm_filter g, ?_⟩
  rw [gpm_filter g, List.filter_eq_nil_iff]
  constructor
  · intro h c hc
    have := h c ((mem_centerOutOrder c).mpr hc)
    simpa using this
  · intro h c hc
    have := h c ((mem_centerOutOrder c).mp hc)
    simpa using this

/-! ### C8 / C9 : `add_disk` -/

/-- A grid whose column 0 is completely full. -/
def gridFullCol0 : Grid := fun c r => if c = 0 ∧ r < 6 then 1 else 0

/-- C8 counterexample: on a full column (with `update_display=False`),
`add_disk` does not fail — it returns normally and leaves the grid
untouched. -/
theorem add_disk_full_column_counterexample :
    column_filled gridFullCol0 0 = true ∧ add_disk gridFullCol0 0 2 = gridFullCol0 := by
  constructor
  · decide
  · rfl

/-- C8 amended: when every cell of the column is occupied (which
`column_filled` implies on gravity-consistent boards), `add_disk` with
`update_display=False` returns normally and is a silent no-op. -/
theorem add_disk_full_column_noop (g : Grid) (c p : Nat)
    (h : ∀ r < 6, g c r ≠ 0) :
    add_disk g c p = g := by
  have h0 := h 0 (by omega)
  have h1 := h 1 (by omega)
  have h2 := h 2 (by omega)
  have h3 := h 3 (by omega)
  have h4 := h 4 (by omega)
  have h5 := h 5 (by omega)
  simp [add_disk, h0, h1, h2, h3, h4, h5]

theorem add_disk_full_column_noop_witness :
    (∀ r < 6, gridFullCol0 0 r ≠ 0) ∧ add_disk gridFullCol0 0 2 = gridFullCol0 :=
  ⟨by decide, add_disk_full_column_noop gridFullCol0 0 2 (by decide)⟩
theorem range6_eq : List.range 6 = [0, 1, 2, 3, 4, 5] := rfl

theorem updateCell_spec (g : Grid) (c j p : Nat) (hj : j < 6) (hcell : g c j = 0)
    (hp : p ≠ 0) :
    updateCell g c j p c j = p
      ∧ (∀ c' r', ¬(c' = c ∧ r' = j) → updateCell g c j p c' r' = g c' r')
      ∧ colHeight (updateCell g c j p) c = colHeight g c + 1
      ∧ (∀ c', c' ≠ c → colHeight (updateCell g c j p) c' = colHeight g c') := by
  refine ⟨by simp [updateCell], fun c' r' h => by simp [updateCell]; intro h1 h2; exact absurd ⟨h1, h2⟩ h, ?_, ?_⟩
  · simp only [colHeight, range6_eq, List.countP_cons, List.countP_nil, updateCell]
    interval_cases j <;> simp [hcell, hp] <;> omega
  · intro c' hc'
    simp only [colHeight, range6_eq, List.countP_cons, List.countP_nil, updateCell]
    simp [hc']
/-- C9: on a non-full column, `add_disk` writes the player into the lowest
empty row of that column, changes no other cell, raises the column's
occupied height by exactly one, and leaves every other column's height
unchanged. -/
theorem add_disk_correct (g : Grid) (c p : Nat) (hc : g c 5 = 0)
    (hp : p = 1 ∨ p = 2) :
    ∃ j, j < 6 ∧ g c j = 0 ∧ (∀ r, r < j → g c r ≠ 0)
      ∧ add_disk g c p c j = p
      ∧ (∀ c' r', ¬(c' = c ∧ r' = j) → add_disk g c p c' r' = g c' r')
      ∧ colHeight (add_disk g c p) c = colHeight g c + 1
      ∧ (∀ c', c' ≠ c → colHeight (add_disk g c p) c' = colHeight g c') := by
  have hp0 : p ≠ 0 := by omega
  by_cases h0 : g c 0 = 0
  · have hred : add_disk g c p = updateCell g c 0 p := by simp [add_disk, h0]
    obtain ⟨a, b, d, e⟩ := updateCell_spec g c 0 p (by omega) h0 hp0
    exact ⟨0, by omega, h0, fun r hr => absurd hr (by omega), hred ▸ a, hred ▸ b, hred ▸ d, hred ▸ e⟩
  · by_cases h1 : g c 1 = 0
    · have hred : add_disk g c p = updateCell g c 1 p := by simp [add_disk, h0, h1]
      obtain ⟨a, b, d, e⟩ := updateCell_spec g c 1 p (by omega) h1 hp0
      refine ⟨1, by omega, h1, ?_, hred ▸ a, hred ▸ b, hred ▸ d, hred ▸ e⟩
      intro r hr
      interval_cases r
      exact h0
    · by_cases h2 : g c 2 = 0
      · have hred : add_disk g c p = updateCell g c 2 p := by simp [add_disk, h0, h1, h2]
        obtain ⟨a, b, d, e⟩ := updateCell_spec g c 2 p (by omega) h2 hp0
        refine ⟨2, by omega, h2, ?_, hred ▸ a, hred ▸ b, hred ▸ d, hred ▸ e⟩
        intro r hr
        interval_cases r
        · exact h0
        · exact h1
      · by_cases h3 : g c 3 = 0
        · have hred : add_disk g c p = updateCell g c 3 p := by
            simp [add_disk, h0, h1, h2, h3]
          obtain ⟨a, b, d, e⟩ := updateCell_spec g c 3 p (by omega) h3 hp0
          refine ⟨3, by omega, h3, ?_, hred ▸ a, hred ▸ b, hred ▸ d, hred ▸ e⟩
          intro r hr
          interval_cases r
          · exact h0
          · exact h1
          · exact h2
        · by_cases h4 : g c 4 = 0
          · have hred : add_disk g c p = updateCell g c 4 p := by
              simp [add_disk, h0, h1, h2, h3, h4]
            obtain ⟨a, b, d, e⟩ := updateCell_spec g c 4 p (by omega) h4 hp0
            refine ⟨4, by omega, h4, ?_, hred ▸ a, hred ▸ b, hred ▸ d, hred ▸ e⟩
            intro r hr
            interval_cases r
            · exact h0
            · exact h1
            · exact h2
            · exact h3
          · have hred : add_disk g c p = updateCell g c 5 p := by
              simp [add_disk, h0, h1, h2, h3, h4, hc]
            obtain ⟨a, b, d, e⟩ := updateCell_spec g c 5 p (by omega) hc hp0
            refine ⟨5, by omega, hc, ?_, hred ▸ a, hred ▸ b, hred ▸ d, hred ▸ e⟩
            intro r hr
            interval_cases r
            · exact h0
            · exact h1
            · exact h2
            · exact h3
            · exact h4

theorem add_disk_correct_witness :
    emptyGrid 3 5 = 0 ∧ (∃ j, j < 6 ∧ emptyGrid 3 j = 0
      ∧ (∀ r, r < j → emptyGrid 3 r ≠ 0)
      ∧ add_disk emptyGrid 3 1 3 j = 1
      ∧ (∀ c' r', ¬(c' = 3 ∧ r' = j) → add_disk emptyGrid 3 1 c' r' = emptyGrid c' r')
      ∧ colHeight (add_disk emptyGrid 3 1) 3 = colHeight emptyGrid 3 + 1
      ∧ (∀ c', c' ≠ 3 → colHeight (add_disk emptyGrid 3 1) c' = colHeight emptyGrid c')) :=
  ⟨rfl, add_disk_correct emptyGrid 3 1 rfl (Or.inl rfl)⟩

/-! ### C2 : single-remaining-move shortcut -/

/-- C2: whenever exactly one legal move remains, `alpha_beta` returns the
evaluation of the current board together with that move — for every depth
(including 0), both players, any window, and regardless of any victory on
the board, because this branch is tested before the depth/victory check. -/
theorem alpha_beta_single_move (g : Grid) (turn depth : Nat) (alpha beta : Score)
    (p : Nat) (maxi : Bool) (m : Nat) (h : get_possible_moves g = [m]) :
    alpha_beta g turn depth alpha beta p maxi = (intScore (eval g p), some m) := by
  cases depth <;> simp [alpha_beta, alpha_beta_aux, h]

/-- Board one disk from full: only column 0 still open (top row holds an
alternating, line-free pattern elsewhere). -/
def gridOneMove : Grid := fun c r =>
  if r = 5 ∧ c ≠ 0 then (if c % 2 = 0 then 1 else 2) else 0

theorem alpha_beta_single_move_witness :
    get_possible_moves gridOneMove = [0]
      ∧ alpha_beta gridOneMove 0 0 ⊥ ⊤ 1 true = (intScore (eval gridOneMove 1), some 0) :=
  ⟨by decide, alpha_beta_single_move gridOneMove 0 0 ⊥ ⊤ 1 true 0 (by decide)⟩

/-! ### C10 : the class-level grid is shared between bare instances -/


theorem readGrid_set_ne (s : Store) (i : Nat) (g : Grid) (b : PyBoard)
    (h : gridRef b ≠ i) : readGrid (s.set i g) b = readGrid s b := by
  simp only [readGrid, List.getD, List.get?_eq_getElem?]
  rw [List.getElem?_set_ne (fun hh => h hh.symm)]

theorem readGrid_append_left (s : Store) (x : Grid) (b : PyBoard)
    (h : gridRef b < s.length) : readGrid (s ++ [x]) b = readGrid s b := by
  simp only [readGrid, List.getD, List.get?_eq_getElem?]
  rw [List.getElem?_append_left h]

/-- C10: two boards obtained from the bare constructor `Board()` resolve
`grid` to the same class-level array, so a disk added through one is
observable through the other's `get_possible_moves`, `eval` and
`check_victory`; a board and its `copy()` use distinct arrays, so mutating
either one leaves the other unchanged. -/
theorem class_grid_shared (s : Store) (b b1 b2 : PyBoard) (c p q : Nat)
    (hs : 0 < s.length) (hb : gridRef b < s.length)
    (h1 : b1.ownGrid = none) (h2 : b2.ownGrid = none) :
    (readGrid (board_add_disk s b1 c p) b2 = add_disk (readGrid s b2) c p)
      ∧ board_moves (board_add_disk s b1 c p) b2
          = get_possible_moves (add_disk (readGrid s b2) c p)
      ∧ board_eval (board_add_disk s b1 c p) b2 q
          = eval (add_disk (readGrid s b2) c p) q
      ∧ board_victory (board_add_disk s b1 c p) b2
          = check_victory (add_disk (readGrid s b2) c p)
      ∧ (board_copy s b).2.ownGrid ≠ none
      ∧ readGrid (board_add_disk (board_copy s b).1 (board_copy s b).2 c p) b
          = readGrid s b
      ∧ readGrid (board_add_disk (board_copy s b).1 b c p) (board_copy s b).2
          = readGrid s b := by
  have hr1 : gridRef b1 = 0 := by simp [gridRef, h1]
  have hr2 : gridRef b2 = 0 := by simp [gridRef, h2]
  have hshare : readGrid (board_add_disk s b1 c p) b2
      = add_disk (readGrid s b2) c p := by
    simp only [readGrid, board_add_disk, hr1, hr2]
    simp [List.getD, List.getElem?_set_eq_of_lt _ hs]
  refine ⟨hshare, by simp [board_moves, hshare], by simp [board_eval, hshare],
    by simp [board_victory, hshare], by simp [board_copy], ?_, ?_⟩
  · have hb' : b.ownGrid.getD 0 < s.length := by
      simpa [gridRef] using hb
    have hne : gridRef b ≠ gridRef (board_copy s b).2 := by
      simp only [board_copy, gridRef, Option.getD_some]
      omega
    rw [board_add_disk, readGrid_set_ne _ _ _ _ hne]
    exact readGrid_append_left s _ b hb
  · have hb' : b.ownGrid.getD 0 < s.length := by
      simpa [gridRef] using hb
    have hne : gridRef (board_copy s b).2 ≠ gridRef b := by
      simp only [board_copy, gridRef, Option.getD_some]
      omega
    rw [board_add_disk, readGrid_set_ne _ _ _ _ hne]
    simp only [board_copy, readGrid, gridRef, Option.getD_some, List.getD,
      List.get?_eq_getElem?]
    rw [List.getElem?_append_right (Nat.le_refl _)]
    simp

theorem class_grid_shared_witness :
    (0 < initStore.length ∧ gridRef board_new < initStore.length)
      ∧ (readGrid (board_add_disk initStore board_new 3 1) board_new
          = add_disk (readGrid initStore board_new) 3 1) :=
  ⟨⟨by decide, by decide⟩,
    (class_grid_shared initStore board_new board_new board_new 3 1 1
      (by decide) (by decide) rfl rfl).1⟩

/-! ### C6 : win detection -/

/-- C6: `check_victory` is true exactly when four contiguous equal, non-empty
cells exist in some orientation (horizontal, vertical, or either diagonal);
in particular it is false on the empty board and on any board with no
length-4 run, and the scan order cannot affect the boolean result. -/
theorem check_victory_correct (g : Grid) : check_victory g = true ↔ hasLine g := by
  simp only [check_victory, hasLine, List.any_eq_true, List.mem_range,
    Bool.or_eq_true, decide_eq_true_eq]
  constructor
  · rintro ((⟨r, hr, c, hc, h⟩ | ⟨c, hc, r, hr, h⟩) | ⟨c, hc, r, hr, h | h⟩)
    · exact Or.inl ⟨c, r, by omega, by omega, h⟩
    · exact Or.inr (Or.inl ⟨c, r, by omega, by omega, h⟩)
    · exact Or.inr (Or.inr (Or.inl ⟨c, r, by omega, by omega, h⟩))
    · refine Or.inr (Or.inr (Or.inr ⟨c, 5 - r, by omega, by omega, by omega, ?_⟩))
      have e1 : 5 - r - 1 = 4 - r := by omega
      have e2 : 5 - r - 2 = 3 - r := by omega
      have e3 : 5 - r - 3 = 2 - r := by omega
      rw [e1, e2, e3]
      exact h
  · rintro (⟨c, r, hc, hr, h⟩ | ⟨c, r, hc, hr, h⟩ | ⟨c, r, hc, hr, h⟩
      | ⟨c, r, hc, hr3, hr5, h⟩)
    · exact Or.inl (Or.inl ⟨r, by omega, c, by omega, h⟩)
    · exact Or.inl (Or.inr ⟨c, by omega, r, by omega, h⟩)
    · exact Or.inr ⟨c, by omega, r, by omega, Or.inl h⟩
    · refine Or.inr ⟨c, by omega, 5 - r, by omega, Or.inr ?_⟩
      have e0 : 5 - (5 - r) = r := by omega
      have e1 : 4 - (5 - r) = r - 1 := by omega
      have e2 : 3 - (5 - r) = r - 2 := by omega
      have e3 : 2 - (5 - r) = r - 3 := by omega
      rw [e0, e1, e2, e3]
      exact h

theorem count_three_le (w : List Nat) (x y z : Nat) (hxy : x ≠ y) (hxz : x ≠ z)
    (hyz : y ≠ z) : w.count x + w.count y + w.count z ≤ w.length := by
  induction w with
  | nil => simp
  | cons a t ih =>
    simp only [List.count_cons, List.length_cons, beq_iff_eq]
    split_ifs <;> omega

theorem eval_window_antisym (w : List Nat) (p : Nat) (hp : p = 1 ∨ p = 2)
    (hw : w.length = 4) : eval_window w (3 - p) = -(eval_window w p) := by
  have h3 : 3 - (3 - p) = p := by omega
  have hpo : p ≠ 3 - p := by omega
  have hp0 : p ≠ 0 := by omega
  have ho0 : 3 - p ≠ 0 := by omega
  have hcount := count_three_le w p (3 - p) 0 hpo hp0 ho0
  rw [hw] at hcount
  simp only [eval_window, h3]
  split_ifs <;> omega

/-- `eval` is exactly antisymmetric in the two players. -/
theorem eval_antisym (g : Grid) (p : Nat) (hp : p = 1 ∨ p = 2) :
    eval g (3 - p) = -(eval g p) := by
  have h3 : 3 - (3 - p) = p := by omega
  have hpo : p ≠ 3 - p := by omega
  have hH : (∑ row ∈ Finset.range 6, ∑ col ∈ Finset.range 4,
      eval_window (hWindow g col row) (3 - p))
      = -(∑ row ∈ Finset.range 6, ∑ col ∈ Finset.range 4,
          eval_window (hWindow g col row) p) := by
    rw [← Finset.sum_neg_distrib]
    refine Finset.sum_congr rfl fun row _ => ?_
    rw [← Finset.sum_neg_distrib]
    exact Finset.sum_congr rfl fun col _ => eval_window_antisym _ p hp rfl
  have hV : (∑ col ∈ Finset.range 7, ∑ row ∈ Finset.range 3,
      eval_window (vWindow g col row) (3 - p))
      = -(∑ col ∈ Finset.range 7, ∑ row ∈ Finset.range 3,
          eval_window (vWindow g col row) p) := by
    rw [← Finset.sum_neg_distrib]
    refine Finset.sum_congr rfl fun col _ => ?_
    rw [← Finset.sum_neg_distrib]
    exact Finset.sum_congr rfl fun row _ => eval_window_antisym _ p hp rfl
  have hD1 : (∑ col ∈ Finset.range 4, ∑ row ∈ Finset.range 3,
      eval_window (d1Window g col row) (3 - p))
      = -(∑ col ∈ Finset.range 4, ∑ row ∈ Finset.range 3,
          eval_window (d1Window g col row) p) := by
    rw [← Finset.sum_neg_distrib]
    refine Finset.sum_congr rfl fun col _ => ?_
    rw [← Finset.sum_neg_distrib]
    exact Finset.sum_congr rfl fun row _ => eval_window_antisym _ p hp rfl
  have hD2 : (∑ col ∈ Finset.range 4, ∑ row ∈ Finset.range 3,
      eval_window (d2Window g col (row + 3)) (3 - p))
      = -(∑ col ∈ Finset.range 4, ∑ row ∈ Finset.range 3,
          eval_window (d2Window g col (row + 3)) p) := by
    rw [← Finset.sum_neg_distrib]
    refine Finset.sum_congr rfl fun col _ => ?_
    rw [← Finset.sum_neg_distrib]
    exact Finset.sum_congr rfl fun row _ => eval_window_antisym _ p hp rfl
  have hC : (∑ row ∈ Finset.range 6, ∑ col ∈ Finset.range 7,
      if g col row = 3 - p then tableAt row col
      else if g col row = p then -(tableAt row col) else 0)
      = -(∑ row ∈ Finset.range 6, ∑ col ∈ Finset.range 7,
          if g col row = p then tableAt row col
          else if g col row = 3 - p then -(tableAt row col) else 0) := by
    rw [← Finset.sum_neg_distrib]
    refine Finset.sum_congr rfl fun row _ => ?_
    rw [← Finset.sum_neg_distrib]
    refine Finset.sum_congr rfl fun col _ => ?_
    split_ifs <;> omega
  rw [eval, eval, h3, hH, hV, hD1, hD2, hC]
  ring

/-- C5 counterexample: the claimed failure of antisymmetry does not exist —
no board and player make `eval` differ from the negated opponent score. -/
theorem eval_antisym_no_counterexample :
    ¬ ∃ (g : Grid) (p : Nat), (p = 1 ∨ p = 2) ∧ eval g p ≠ -(eval g (3 - p)) := by
  rintro ⟨g, p, hp, hne⟩
  apply hne
  rw [eval_antisym g p hp]
  ring

/-- C5 amended: the evaluation IS exactly antisymmetric — for every board
and every player in `{1,2}`, `eval(player)` equals the negation of
`eval(opponent)` (each window score and each positional term flips sign). -/
theorem eval_exact_antisym (g : Grid) (p : Nat) (hp : p = 1 ∨ p = 2) :
    eval g p = -(eval g (3 - p)) := by
  rw [eval_antisym g p hp]
  ring

theorem eval_exact_antisym_witness :
    (1 = 1 ∨ 1 = 2) ∧ eval emptyGrid 1 = -(eval emptyGrid (3 - 1)) :=
  ⟨Or.inl rfl, eval_exact_antisym emptyGrid 1 (Or.inl rfl)⟩

/-! ### C4 / C5 : the evaluation function -/

theorem mem_range3 (a : Nat) (h : a ≤ 2) : a ∈ ([0, 1, 2] : List Nat) := by
  interval_cases a <;> simp

theorem window_score_bounded :
    ∀ a ∈ ([0, 1, 2] : List Nat), ∀ b ∈ ([0, 1, 2] : List Nat),
    ∀ c ∈ ([0, 1, 2] : List Nat), ∀ d ∈ ([0, 1, 2] : List Nat),
    ∀ p ∈ ([1, 2] : List Nat),
      eval_window [a, b, c, d] p = window_score_spec a b c d p := by
  decide

theorem eval_window_eq_spec (a b c d p : Nat) (ha : a ≤ 2) (hb : b ≤ 2)
    (hc : c ≤ 2) (hd : d ≤ 2) (hp : p = 1 ∨ p = 2) :
    eval_window [a, b, c, d] p = window_score_spec a b c d p := by
  have hpm : p ∈ ([1, 2] : List Nat) := by
    rcases hp with rfl | rfl <;> simp
  exact window_score_bounded a (mem_range3 a ha) b (mem_range3 b hb)
    c (mem_range3 c hc) d (mem_range3 d hd) p hpm

/-- C4: for boards with cells in `{0,1,2}` and a real player, `eval` is the
sum over every 4-cell window of the ±10000 / ±20 window score plus the
positional table added for the player's cells and subtracted for the
opponent's, with no further normalization. -/
theorem eval_correct (g : Grid) (p : Nat)
    (hg : ∀ c < 7, ∀ r < 6, g c r ≤ 2) (hp : p = 1 ∨ p = 2) :
    eval g p = line_score_spec g p + pos_score_spec g p := by
  have hH : (∑ row ∈ Finset.range 6, ∑ col ∈ Finset.range 4,
      eval_window (hWindow g col row) p)
      = ∑ row ∈ Finset.range 6, ∑ col ∈ Finset.range 4,
        window_score_spec (g col row) (g (col + 1) row) (g (col + 2) row)
          (g (col + 3) row) p := by
    refine Finset.sum_congr rfl fun row hrow => Finset.sum_congr rfl fun col hcol => ?_
    rw [Finset.mem_range] at hrow hcol
    exact eval_window_eq_spec _ _ _ _ p (hg col (by omega) row (by omega))
      (hg (col + 1) (by omega) row (by omega)) (hg (col + 2) (by omega) row (by omega))
      (hg (col + 3) (by omega) row (by omega)) hp
  have hV : (∑ col ∈ Finset.range 7, ∑ row ∈ Finset.range 3,
      eval_window (vWindow g col row) p)
      = ∑ col ∈ Finset.range 7, ∑ row ∈ Finset.range 3,
        window_score_spec (g col row) (g col (row + 1)) (g col (row + 2))
          (g col (row + 3)) p := by
    refine Finset.sum_congr rfl fun col hcol => Finset.sum_congr rfl fun row hrow => ?_
    rw [Finset.mem_range] at hrow hcol
    exact eval_window_eq_spec _ _ _ _ p (hg col (by omega) row (by omega))
      (hg col (by omega) (row + 1) (by omega)) (hg col (by omega) (row + 2) (by omega))
      (hg col (by omega) (row + 3) (by omega)) hp
  have hD1 : (∑ col ∈ Finset.range 4, ∑ row ∈ Finset.range 3,
      eval_window (d1Window g col row) p)
      = ∑ col ∈ Finset.range 4, ∑ row ∈ Finset.range 3,
        window_score_spec (g col row) (g (col + 1) (row + 1))
          (g (col + 2) (row + 2)) (g (col + 3) (row + 3)) p := by
    refine Finset.sum_congr rfl fun col hcol => Finset.sum_congr rfl fun row hrow => ?_
    rw [Finset.mem_range] at hrow hcol
    exact eval_window_eq_spec _ _ _ _ p (hg col (by omega) row (by omega))
      (hg (col + 1) (by omega) (row + 1) (by omega))
      (hg (col + 2) (by omega) (row + 2) (by omega))
      (hg (col + 3) (by omega) (row + 3) (by omega)) hp
  have hD2 : (∑ col ∈ Finset.range 4, ∑ row ∈ Finset.range 3,
      eval_window (d2Window g col (row + 3)) p)
      = ∑ col ∈ Finset.range 4, ∑ row ∈ Finset.range 3,
        window_score_spec (g col (row + 3)) (g (col + 1) (row + 2))
          (g (col + 2) (row + 1)) (g (col + 3) row) p := by
    refine Finset.sum_congr rfl fun col hcol => Finset.sum_congr rfl fun row hrow => ?_
    rw [Finset.mem_range] at hrow hcol
    have e1 : row + 3 - 1 = row + 2 := by omega
    have e2 : row + 3 - 2 = row + 1 := by omega
    have e3 : row + 3 - 3 = row := by omega
    rw [d2Window, e1, e2, e3]
    exact eval_window_eq_spec _ _ _ _ p (hg col (by omega) (row + 3) (by omega))
      (hg (col + 1) (by omega) (row + 2) (by omega))
      (hg (col + 2) (by omega) (row + 1) (by omega))
      (hg (col + 3) (by omega) row (by omega)) hp
  have hC : (∑ row ∈ Finset.range 6, ∑ col ∈ Finset.range 7,
      if g col row = p then tableAt row col
      else if g col row = 3 - p then -(tableAt row col) else 0)
      = pos_score_spec g p := by
    refine Finset.sum_congr rfl fun row hrow => Finset.sum_congr rfl fun col hcol => ?_
    have hpo : p ≠ 3 - p := by omega
    split_ifs with hcp hco <;> omega
  rw [eval, hH, hV, hD1, hD2, hC, line_score_spec]

theorem eval_correct_witness :
    (∀ c < 7, ∀ r < 6, emptyGrid c r ≤ 2) ∧ (1 = 1 ∨ 1 = 2)
      ∧ eval emptyGrid 1 = line_score_spec emptyGrid 1 + pos_score_spec emptyGrid 1 :=
  ⟨by decide, Or.inl rfl, eval_correct emptyGrid 1 (by decide) (Or.inl rfl)⟩

/-! ### C3 : the root search proposes a move -/

theorem intScore_ne_bot (n : Int) : intScore n ≠ ⊥ := WithBot.coe_ne_bot

theorem intScore_ne_top (n : Int) : intScore n ≠ ⊤ := by
  simp only [intScore]
  intro h
  rw [show (⊤ : Score) = ((⊤ : WithTop Int) : Score) from rfl, WithBot.coe_inj] at h
  exact WithTop.coe_ne_top h

theorem add_disk_other_cols (g : Grid) (m q c r : Nat) (h : c ≠ m) :
    add_disk g m q c r = g c r := by
  unfold add_disk
  split_ifs <;> simp [updateCell, h]

theorem centerOutOrder_nodup : centerOutOrder.Nodup := by decide

/-- Dropping a disk closes at most its own column, so a board with at least
two legal moves always leaves its children at least one. -/
theorem moves_nonempty_after (g : Grid) (q m : Nat)
    (h2 : 2 ≤ (get_possible_moves g).length) :
    get_possible_moves (add_disk g m q) ≠ [] := by
  rw [gpm_filter] at h2 ⊢
  have hnd : (centerOutOrder.filter fun c => decide (g c 5 = 0)).Nodup :=
    centerOutOrder_nodup.filter _
  rcases hl : centerOutOrder.filter fun c => decide (g c 5 = 0) with _ | ⟨a, _ | ⟨b, t⟩⟩
  · rw [hl] at h2
    simp at h2
  · rw [hl] at h2
    simp at h2
  · rw [hl] at hnd
    have hab : a ≠ b := by
      intro h
      rw [List.nodup_cons] at hnd
      exact hnd.1 (h ▸ List.mem_cons_self b t)
    have hmem : ∀ x, x ∈ centerOutOrder.filter (fun c => decide (g c 5 = 0)) →
        x ≠ m → x ∈ centerOutOrder.filter fun c => decide (add_disk g m q c 5 = 0) := by
      intro x hx hxm
      rw [List.mem_filter] at hx ⊢
      exact ⟨hx.1, by rw [add_disk_other_cols g m q x 5 hxm]; exact hx.2⟩
    by_cases ham : a = m
    · have hbm : b ≠ m := fun h => hab (h ▸ ham)
      exact List.ne_nil_of_mem
        (hmem b (hl ▸ List.mem_cons_of_mem a (List.mem_cons_self b t)) hbm)
    · exact List.ne_nil_of_mem (hmem a (hl ▸ List.mem_cons_self a _) ham)

/-- The maximizing loop keeps the accumulator away from ±infinity when the
children's values are. -/
theorem abMaxLoop_ne_aux (f : Grid → Score → Score → Score × Option Nat)
    (g : Grid) (cp : Nat) (beta : Score)
    (hv : ∀ m a b, (f (add_disk g m cp) a b).1 ≠ ⊥ ∧ (f (add_disk g m cp) a b).1 ≠ ⊤) :
    ∀ (moves : List Nat) (alpha maxv : Score) (best : Option Nat),
      maxv ≠ ⊥ → maxv ≠ ⊤ →
      (abMaxLoop f g cp beta moves alpha maxv best).1 ≠ ⊥
        ∧ (abMaxLoop f g cp beta moves alpha maxv best).1 ≠ ⊤ := by
  intro moves
  induction moves with
  | nil => exact fun alpha maxv best h1 h2 => ⟨h1, h2⟩
  | cons m rest ih =>
    intro alpha maxv best h1 h2
    simp only [abMaxLoop]
    obtain ⟨hvb, hvt⟩ := hv m alpha beta
    by_cases hlt : maxv < (f (add_disk g m cp) alpha beta).1 <;>
      by_cases hcut : beta ≤ max alpha (f (add_disk g m cp) alpha beta).1 <;>
      simp only [hlt, hcut, if_true, if_false, ite_true, ite_false]
    · exact ⟨hvb, hvt⟩
    · exact ih _ _ _ hvb hvt
    · exact ⟨h1, h2⟩
    · exact ih _ _ _ h1 h2

theorem abMinLoop_ne_aux (f : Grid → Score → Score → Score × Option Nat)
    (g : Grid) (cp : Nat) (alpha : Score)
    (hv : ∀ m a b, (f (add_disk g m (3 - cp)) a b).1 ≠ ⊥
      ∧ (f (add_disk g m (3 - cp)) a b).1 ≠ ⊤) :
    ∀ (moves : List Nat) (beta minv : Score) (best : Option Nat),
      minv ≠ ⊥ → minv ≠ ⊤ →
      (abMinLoop f g cp alpha moves beta minv best).1 ≠ ⊥
        ∧ (abMinLoop f g cp alpha moves beta minv best).1 ≠ ⊤ := by
  intro moves
  induction moves with
  | nil => exact fun beta minv best h1 h2 => ⟨h1, h2⟩
  | cons m rest ih =>
    intro beta minv best h1 h2
    simp only [abMinLoop]
    obtain ⟨hvb, hvt⟩ := hv m alpha beta
    by_cases hlt : (f (add_disk g m (3 - cp)) alpha beta).1 < minv <;>
      by_cases hcut : min beta (f (add_disk g m (3 - cp)) alpha beta).1 ≤ alpha <;>
      simp only [hlt, hcut, if_true, if_false, ite_true, ite_false]
    · exact ⟨hvb, hvt⟩
    · exact ih _ _ _ hvb hvt
    · exact ⟨h1, h2⟩
    · exact ih _ _ _ h1 h2

/-- Any search node whose board still has a legal move returns a finite
score (the ±infinity sentinels can only escape from a node with no move at
all). -/
theorem alpha_beta_aux_ne (d : Nat) :
    ∀ (g : Grid) (alpha beta : Score) (cp : Nat) (maxi : Bool),
      get_possible_moves g ≠ [] →
      (alpha_beta_aux d g alpha beta cp maxi).1 ≠ ⊥
        ∧ (alpha_beta_aux d g alpha beta cp maxi).1 ≠ ⊤ := by
  induction d with
  | zero =>
    intro g alpha beta cp maxi _
    simp only [alpha_beta_aux]
    split_ifs <;> exact ⟨intScore_ne_bot _, intScore_ne_top _⟩
  | succ d ih =>
    intro g alpha beta cp maxi hne
    simp only [alpha_beta_aux]
    by_cases h1 : (get_possible_moves g).length = 1
    · simp only [h1, if_true]
      exact ⟨intScore_ne_bot _, intScore_ne_top _⟩
    · by_cases h2 : check_victory g
      · simp only [h1, h2, if_true, if_false, ite_true, ite_false]
        exact ⟨intScore_ne_bot _, intScore_ne_top _⟩
      · have hlen2 : 2 ≤ (get_possible_moves g).length := by
          rcases hgm : get_possible_moves g with _ | ⟨m, t⟩
          · exact absurd hgm hne
          · rw [hgm] at h1
            simp only [List.length_cons] at h1 ⊢
            omega
        obtain ⟨m, rest, hm⟩ : ∃ m rest, get_possible_moves g = m :: rest := by
          rcases hgm : get_possible_moves g with _ | ⟨m, t⟩
          · exact absurd hgm hne
          · exact ⟨m, t, rfl⟩
        simp only [h1, h2, if_false, ite_false]
        cases maxi
        · simp only [ite_false, Bool.false_eq_true, if_false]
          have hv : ∀ k a b, (alpha_beta_aux d (add_disk g k (3 - cp)) a b cp true).1 ≠ ⊥
              ∧ (alpha_beta_aux d (add_disk g k (3 - cp)) a b cp true).1 ≠ ⊤ :=
            fun k a b => ih _ a b cp true (moves_nonempty_after g (3 - cp) k hlen2)
          rw [hm]
          simp only [abMinLoop]
          obtain ⟨hvb, hvt⟩ := hv m alpha beta
          have hlt : (alpha_beta_aux d (add_disk g m (3 - cp)) alpha beta cp true).1 < ⊤ :=
            Ne.lt_top hvt
          simp only [hlt, if_true, ite_true]
          by_cases hcut : min beta (alpha_beta_aux d (add_disk g m (3 - cp)) alpha beta cp true).1 ≤ alpha <;>
            simp only [hcut, if_true, if_false, ite_true, ite_false]
          · exact ⟨hvb, hvt⟩
          · exact abMinLoop_ne_aux _ g cp alpha hv rest _ _ _ hvb hvt
        · simp only [ite_true, if_true]
          have hv : ∀ k a b, (alpha_beta_aux d (add_disk g k cp) a b cp false).1 ≠ ⊥
              ∧ (alpha_beta_aux d (add_disk g k cp) a b cp false).1 ≠ ⊤ :=
            fun k a b => ih _ a b cp false (moves_nonempty_after g cp k hlen2)
          rw [hm]
          simp only [abMaxLoop]
          obtain ⟨hvb, hvt⟩ := hv m alpha beta
          have hlt : (⊥ : Score) < (alpha_beta_aux d (add_disk g m cp) alpha beta cp false).1 :=
            Ne.bot_lt hvb
          simp only [hlt, if_true, ite_true]
          by_cases hcut : beta ≤ max alpha (alpha_beta_aux d (add_disk g m cp) alpha beta cp false).1 <;>
            simp only [hcut, if_true, if_false, ite_true, ite_false]
          · exact ⟨hvb, hvt⟩
          · exact abMaxLoop_ne_aux _ g cp beta hv rest _ _ _ hvb hvt

/-- Once a best move is recorded, the maximizing loop never forgets it. -/
theorem abMaxLoop_some (f : Grid → Score → Score → Score × Option Nat)
    (g : Grid) (cp : Nat) (beta : Score) :
    ∀ (moves : List Nat) (alpha maxv : Score) (x : Nat),
      (abMaxLoop f g cp beta moves alpha maxv (some x)).2 ≠ none := by
  intro moves
  induction moves with
  | nil => intro alpha maxv x; simp [abMaxLoop]
  | cons m rest ih =>
    intro alpha maxv x
    simp only [abMaxLoop]
    by_cases hlt : maxv < (f (add_disk g m cp) alpha beta).1 <;>
      by_cases hcut : beta ≤ max alpha (f (add_disk g m cp) alpha beta).1 <;>
      simp only [hlt, hcut, if_true, if_false, ite_true, ite_false]
    · simp
    · exact ih _ _ m
    · simp
    · exact ih _ _ x

/-- C3 counterexample: a board that is far from full but already contains a
four-in-a-row; the root search at depth 1 returns `move = None`. -/
def gridVictoryCol0 : Grid := fun c r => if c = 0 ∧ r ≤ 3 then 1 else 0

theorem alpha_beta_none_counterexample :
    get_possible_moves gridVictoryCol0 ≠ []
      ∧ (alpha_beta gridVictoryCol0 0 1 ⊥ ⊤ 1 true).2 = none := by
  constructor
  · decide
  · rfl

/-- C3 amended: for every board that is not full **and carries no completed
four-in-a-row**, every depth in `[1,42]` and every player, the root call
`alpha_beta(board, turn, depth, -inf, +inf, p, True)` returns a non-`None`
move; `move = None` happens only on an already-full board or on a board
whose `check_victory` already holds, and in both cases the search returns
explicitly rather than raising. -/
theorem alpha_beta_root_move_some (g : Grid) (turn depth p : Nat)
    (hmoves : get_possible_moves g ≠ []) (hvic : check_victory g = false)
    (hd1 : 1 ≤ depth) (hd2 : depth ≤ 42) :
    (alpha_beta g turn depth ⊥ ⊤ p true).2 ≠ none := by
  obtain ⟨d, rfl⟩ : ∃ d, depth = d + 1 := ⟨depth - 1, by omega⟩
  rw [alpha_beta]
  simp only [alpha_beta_aux]
  by_cases h1 : (get_possible_moves g).length = 1
  · simp only [h1, if_true]
    rcases hgm : get_possible_moves g with _ | ⟨m, t⟩
    · exact absurd hgm hmoves
    · simp
  · have hlen2 : 2 ≤ (get_possible_moves g).length := by
      rcases hgm : get_possible_moves g with _ | ⟨m, t⟩
      · exact absurd hgm hmoves
      · rw [hgm] at h1
        simp only [List.length_cons] at h1 ⊢
        omega
    obtain ⟨m, rest, hm⟩ : ∃ m rest, get_possible_moves g = m :: rest := by
      rcases hgm : get_possible_moves g with _ | ⟨m, t⟩
      · exact absurd hgm hmoves
      · exact ⟨m, t, rfl⟩
    simp only [h1, hvic, if_false, ite_false, ite_true, if_true]
    rw [hm]
    simp only [abMaxLoop]
    obtain ⟨hvb, hvt⟩ := alpha_beta_aux_ne d (add_disk g m p) ⊥ ⊤ p false
      (moves_nonempty_after g p m hlen2)
    have hlt : (⊥ : Score) < (alpha_beta_aux d (add_disk g m p) ⊥ ⊤ p false).1 :=
      Ne.bot_lt hvb
    simp only [hlt, if_true, ite_true]
    have hcut : ¬ ((⊤ : Score) ≤ max ⊥ (alpha_beta_aux d (add_disk g m p) ⊥ ⊤ p false).1) := by
      rw [top_le_iff]
      intro h
      rcases max_choice (⊥ : Score) (alpha_beta_aux d (add_disk g m p) ⊥ ⊤ p false).1 with hc | hc <;>
        rw [hc] at h
      · exact absurd h bot_lt_top.ne
      · exact hvt h
    simp only [hcut, if_false, ite_false]
    exact abMaxLoop_some _ g p ⊤ rest _ _ m

/-- Board with two open columns (0 and 1) and a line-free top row. -/
def gridTwoMoves : Grid := fun c r =>
  if r = 5 ∧ 2 ≤ c then (if c % 2 = 0 then 1 else 2) else 0

theorem alpha_beta_root_move_some_witness :
    (get_possible_moves gridTwoMoves ≠ [] ∧ check_victory gridTwoMoves = false
        ∧ 1 ≤ 1 ∧ 1 ≤ 42)
      ∧ (alpha_beta gridTwoMoves 0 1 ⊥ ⊤ 1 true).2 ≠ none :=
  ⟨⟨by decide, by decide, by decide, by decide⟩,
    alpha_beta_root_move_some gridTwoMoves 0 1 1 (by decide) (by decide)
      (by decide) (by decide)⟩

/-! ### C1 : pruning does not change the root score

The proof follows the classical fail-soft alpha-beta correctness argument:
relative to a window `alpha < beta`, the pruned value `r` and the exhaustive
value `m` of the same node satisfy three cases — a fail-low `r` upper-bounds
`m`, an in-window `r` equals `m`, and a fail-high `r` lower-bounds `m`.  At
the root window `(-inf, +inf)` the three cases collapse to equality. -/

def threeCases (r m a b : Score) : Prop :=
  (r ≤ a → m ≤ r) ∧ (a < r → r < b → r = m) ∧ (b ≤ r → r ≤ m)

def listMax (l : List Score) : Score := l.foldr max ⊥

def listMin (l : List Score) : Score := l.foldr min ⊤

theorem ite_lt_max (x y : Score) : (if x < y then y else x) = max x y := by
  rcases le_or_lt y x with h | h
  · rw [if_neg (not_lt.mpr h), max_eq_left h]
  · rw [if_pos h, max_eq_right h.le]

theorem ite_lt_min (x y : Score) : (if x < y then x else y) = min y x := by
  rcases le_or_lt y x with h | h
  · rw [if_neg (not_lt.mpr h), min_eq_left h]
  · rw [if_pos h, min_eq_right h.le]

theorem mmMaxLoop_val (f : Grid → Score × Option Nat) (g : Grid) (cp : Nat) :
    ∀ (moves : List Nat) (maxv : Score) (best : Option Nat),
      (mmMaxLoop f g cp moves maxv best).1
        = max maxv (listMax (moves.map fun m => (f (add_disk g m cp)).1)) := by
  intro moves
  induction moves with
  | nil =>
    intro maxv best
    simp [mmMaxLoop, listMax]
  | cons m rest ih =>
    intro maxv best
    simp only [mmMaxLoop, List.map_cons, listMax, List.foldr_cons]
    by_cases h : maxv < (f (add_disk g m cp)).1 <;>
      simp only [h, if_true, if_false, ite_true, ite_false] <;> rw [ih]
    · rw [show (listMax (rest.map fun k => (f (add_disk g k cp)).1))
          = List.foldr max ⊥ (rest.map fun k => (f (add_disk g k cp)).1) from rfl,
        ← max_assoc, max_eq_right h.le]
    · rw [show (listMax (rest.map fun k => (f (add_disk g k cp)).1))
          = List.foldr max ⊥ (rest.map fun k => (f (add_disk g k cp)).1) from rfl,
        ← max_assoc, max_eq_left (not_lt.mp h)]

theorem mmMinLoop_val (f : Grid → Score × Option Nat) (g : Grid) (cp : Nat) :
    ∀ (moves : List Nat) (minv : Score) (best : Option Nat),
      (mmMinLoop f g cp moves minv best).1
        = min minv (listMin (moves.map fun m => (f (add_disk g m (3 - cp))).1)) := by
  intro moves
  induction moves with
  | nil =>
    intro minv best
    simp [mmMinLoop, listMin]
  | cons m rest ih =>
    intro minv best
    simp only [mmMinLoop, List.map_cons, listMin, List.foldr_cons]
    by_cases h : (f (add_disk g m (3 - cp))).1 < minv <;>
      simp only [h, if_true, if_false, ite_true, ite_false] <;> rw [ih]
    · rw [show (listMin (rest.map fun k => (f (add_disk g k (3 - cp))).1))
          = List.foldr min ⊤ (rest.map fun k => (f (add_disk g k (3 - cp))).1) from rfl,
        ← min_assoc, min_eq_right h.le]
    · rw [show (listMin (rest.map fun k => (f (add_disk g k (3 - cp))).1))
          = List.foldr min ⊤ (rest.map fun k => (f (add_disk g k (3 - cp))).1) from rfl,
        ← min_assoc, min_eq_left (not_lt.mp h)]

/-- Fail-soft invariant of the pruned maximizing loop.  `alpha0` is the
alpha the node was entered with, `a` the current alpha, `maxv` the running
best, `P` the exhaustive maximum over the already-explored prefix. -/
theorem abMaxLoop_bounds (f : Grid → Score → Score → Score × Option Nat)
    (fm : Grid → Score) (g : Grid) (cp : Nat) (beta : Score)
    (hf : ∀ g' a, a < beta → threeCases (f g' a beta).1 (fm g') a beta) :
    ∀ (moves : List Nat) (alpha0 a maxv : Score) (best : Option Nat) (P : Score),
      a = max alpha0 maxv → a < beta → maxv ≤ max alpha0 P → P ≤ maxv →
      threeCases (abMaxLoop f g cp beta moves a maxv best).1
        (max P (listMax (moves.map fun m => fm (add_disk g m cp)))) alpha0 beta := by
  intro moves
  induction moves with
  | nil =>
    intro alpha0 a maxv best P ha hab h1 h2
    simp only [abMaxLoop, List.map_nil, listMax, List.foldr_nil, max_bot_right]
    refine ⟨fun _ => h2, fun hlo _ => ?_, fun hhi => ?_⟩
    · refine le_antisymm ?_ h2
      rcases max_choice alpha0 P with hc | hc <;> rw [hc] at h1
      · exact absurd (lt_of_lt_of_le hlo h1) (lt_irrefl alpha0)
      · exact h1
    · exact absurd (lt_of_le_of_lt (hhi.trans (ha ▸ le_max_right alpha0 maxv)) hab)
        (lt_irrefl beta)
  | cons m rest ih =>
    intro alpha0 a maxv best P ha hab h1 h2
    simp only [abMaxLoop, List.map_cons, listMax, List.foldr_cons]
    have htc := hf (add_disk g m cp) a hab
    set v := (f (add_disk g m cp) a beta).1 with hv
    set mv := fm (add_disk g m cp) with hmv
    set L : Score := List.foldr max ⊥ (rest.map fun k => fm (add_disk g k cp)) with hL
    have ha0a : alpha0 ≤ a := by rw [ha]; exact le_max_left alpha0 maxv
    have hmva : maxv ≤ a := by rw [ha]; exact le_max_right alpha0 maxv
    rw [ite_lt_max maxv v]
    by_cases hcut : beta ≤ max a v
    · simp only [hcut, if_true, ite_true]
      have hbv : beta ≤ v := by
        rcases max_choice a v with hc | hc <;> rw [hc] at hcut
        · exact absurd (lt_of_lt_of_le hab hcut) (lt_irrefl a)
        · exact hcut
      have hvmv : v ≤ mv := htc.2.2 hbv
      have hPM : P ≤ max P (max mv L) := le_max_left _ _
      have hmvM : mv ≤ max P (max mv L) :=
        (le_max_left mv L).trans (le_max_right P (max mv L))
      have hvM : v ≤ max P (max mv L) := hvmv.trans hmvM
      have ha0M : alpha0 ≤ max P (max mv L) :=
        ((ha0a.trans_lt hab).trans_le (hbv.trans hvM)).le
      have hmaxvM : maxv ≤ max P (max mv L) := h1.trans (max_le ha0M hPM)
      refine ⟨fun hle => ?_, fun _ hltb => ?_, fun _ => max_le hmaxvM hvM⟩
      · exact absurd ((hbv.trans ((le_max_right maxv v).trans hle)).trans_lt
          (ha0a.trans_lt hab)) (lt_irrefl beta)
      · exact absurd (lt_of_le_of_lt (hbv.trans (le_max_right maxv v)) hltb)
          (lt_irrefl beta)
    · simp only [hcut, if_false, ite_false]
      have hab' : max a v < beta := not_le.mp hcut
      have hvb : v < beta := lt_of_le_of_lt (le_max_right a v) hab'
      have hP'P : max P mv ≤ max alpha0 (max P mv) := le_max_right _ _
      have hmaxv' : maxv ≤ max alpha0 (max P mv) :=
        h1.trans (max_le_max le_rfl (le_max_left P mv))
      have hamax : a ≤ max alpha0 (max P mv) := by
        rw [ha]
        exact max_le (le_max_left _ _) hmaxv'
      have h1' : max maxv v ≤ max alpha0 (max P mv) := by
        rcases le_or_lt v a with hva | hva
        · exact max_le hmaxv' (hva.trans hamax)
        · have hvmv : v = mv := htc.2.1 hva hvb
          refine max_le hmaxv' ?_
          rw [hvmv]
          exact (le_max_right P mv).trans hP'P
      have h2' : max P mv ≤ max maxv v := by
        rcases le_or_lt v a with hva | hva
        · have hmvv : mv ≤ v := htc.1 hva
          exact max_le (h2.trans (le_max_left maxv v)) (hmvv.trans (le_max_right maxv v))
        · have hvmv : v = mv := htc.2.1 hva hvb
          exact max_le (h2.trans (le_max_left maxv v)) (hvmv ▸ le_max_right maxv v)
      have hrec := ih alpha0 (max a v) (max maxv v) (if maxv < v then some m else best)
        (max P mv) (by rw [ha, max_assoc]) hab' h1' h2'
      rw [show max P (max mv L) = max (max P mv) L from (max_assoc P mv L).symm]
      exact hrec

/-- Fail-soft invariant of the pruned minimizing loop (dual of
`abMaxLoop_bounds`). -/
theorem abMinLoop_bounds (f : Grid → Score → Score → Score × Option Nat)
    (fm : Grid → Score) (g : Grid) (cp : Nat) (alpha : Score)
    (hf : ∀ g' b, alpha < b → threeCases (f g' alpha b).1 (fm g') alpha b) :
    ∀ (moves : List Nat) (beta0 b minv : Score) (best : Option Nat) (P : Score),
      b = min beta0 minv → alpha < b → min beta0 P ≤ minv → minv ≤ P →
      threeCases (abMinLoop f g cp alpha moves b minv best).1
        (min P (listMin (moves.map fun m => fm (add_disk g m (3 - cp))))) alpha beta0 := by
  intro moves
  induction moves with
  | nil =>
    intro beta0 b minv best P hb hab h1 h2
    simp only [abMinLoop, List.map_nil, listMin, List.foldr_nil, min_top_right]
    have hbminv : b ≤ minv := by rw [hb]; exact min_le_right beta0 minv
    refine ⟨fun hle => ?_, fun _ hltb => ?_, fun _ => h2⟩
    · exact absurd (lt_of_lt_of_le hab (hbminv.trans hle)) (lt_irrefl alpha)
    · refine le_antisymm h2 ?_
      rcases min_choice beta0 P with hc | hc <;> rw [hc] at h1
      · exact absurd (lt_of_le_of_lt h1 hltb) (lt_irrefl beta0)
      · exact h1
  | cons m rest ih =>
    intro beta0 b minv best P hb hab h1 h2
    simp only [abMinLoop, List.map_cons, listMin, List.foldr_cons]
    have htc := hf (add_disk g m (3 - cp)) b hab
    set v := (f (add_disk g m (3 - cp)) alpha b).1 with hv
    set mv := fm (add_disk g m (3 - cp)) with hmv
    set L : Score := List.foldr min ⊤ (rest.map fun k => fm (add_disk g k (3 - cp))) with hL
    have hbb0 : b ≤ beta0 := by rw [hb]; exact min_le_left beta0 minv
    have hbminv : b ≤ minv := by rw [hb]; exact min_le_right beta0 minv
    rw [ite_lt_min v minv]
    by_cases hcut : min b v ≤ alpha
    · simp only [hcut, if_true, ite_true]
      have hva : v ≤ alpha := by
        rcases min_choice b v with hc | hc <;> rw [hc] at hcut
        · exact absurd (lt_of_lt_of_le hab hcut) (lt_irrefl alpha)
        · exact hcut
      have hmvv : mv ≤ v := htc.1 hva
      have hPM : min P (min mv L) ≤ P := min_le_left _ _
      have hmvM : min P (min mv L) ≤ mv :=
        (min_le_right P (min mv L)).trans (min_le_left mv L)
      have hvM : min P (min mv L) ≤ v := hmvM.trans hmvv
      have hb0M : min P (min mv L) ≤ beta0 :=
        ((hvM.trans hva).trans_lt (hab.trans_le hbb0)).le
      have hminvM : min P (min mv L) ≤ minv := (le_min hb0M hPM).trans h1
      refine ⟨fun _ => le_min hminvM hvM, fun hlo _ => ?_, fun hhi => ?_⟩
      · exact absurd (lt_of_lt_of_le hlo ((min_le_right minv v).trans hva))
          (lt_irrefl alpha)
      · exact absurd (lt_of_le_of_lt
          (hhi.trans ((min_le_right minv v).trans hva)) (hab.trans_le hbb0))
          (lt_irrefl beta0)
    · simp only [hcut, if_false, ite_false]
      have hab' : alpha < min b v := not_le.mp hcut
      have hva : alpha < v := hab'.trans_le (min_le_right b v)
      have hminv' : min beta0 (min P mv) ≤ minv :=
        (min_le_min le_rfl (min_le_left P mv)).trans h1
      have hbmin : min beta0 (min P mv) ≤ b := by
        rw [hb]
        exact le_min (min_le_left _ _) hminv'
      have h1' : min beta0 (min P mv) ≤ min minv v := by
        rcases le_or_lt b v with hvb | hvb
        · exact le_min hminv' (hbmin.trans hvb)
        · have hveq : v = mv := htc.2.1 hva hvb
          refine le_min hminv' ?_
          rw [hveq]
          exact (min_le_right beta0 (min P mv)).trans (min_le_right P mv)
      have h2' : min minv v ≤ min P mv := by
        rcases le_or_lt b v with hvb | hvb
        · exact le_min ((min_le_left minv v).trans h2)
            ((min_le_right minv v).trans (htc.2.2 hvb))
        · have hveq : v = mv := htc.2.1 hva hvb
          exact le_min ((min_le_left minv v).trans h2) (hveq ▸ min_le_right minv v)
      have hrec := ih beta0 (min b v) (min minv v) (if v < minv then some m else best)
        (min P mv) (by rw [hb, min_assoc]) hab' h1' h2'
      rw [show min P (min mv L) = min (min P mv) L from (min_assoc P mv L).symm]
      exact hrec

/-- At every node and window `alpha < beta`, the pruned and the exhaustive
values satisfy the fail-soft three-case relation. -/
theorem ab_mm_threeCases (d : Nat) :
    ∀ (g : Grid) (alpha beta : Score) (cp : Nat) (maxi : Bool), alpha < beta →
      threeCases (alpha_beta_aux d g alpha beta cp maxi).1
        (minimax_aux d g cp maxi).1 alpha beta := by
  induction d with
  | zero =>
    intro g alpha beta cp maxi _
    simp only [alpha_beta_aux, minimax_aux]
    split_ifs <;> exact ⟨fun _ => le_rfl, fun _ _ => rfl, fun _ => le_rfl⟩
  | succ d ih =>
    intro g alpha beta cp maxi hab
    simp only [alpha_beta_aux, minimax_aux]
    by_cases h1 : (get_possible_moves g).length = 1
    · simp only [h1, if_true]
      exact ⟨fun _ => le_rfl, fun _ _ => rfl, fun _ => le_rfl⟩
    · by_cases h2 : check_victory g
      · simp only [h1, h2, if_true, if_false, ite_true, ite_false]
        exact ⟨fun _ => le_rfl, fun _ _ => rfl, fun _ => le_rfl⟩
      · cases maxi
        · simp only [h1, h2, Bool.false_eq_true, if_true, if_false, ite_true, ite_false]
          rw [mmMinLoop_val]
          have hres := abMinLoop_bounds
            (fun g' a b => alpha_beta_aux d g' a b cp true)
            (fun g' => (minimax_aux d g' cp true).1) g cp alpha
            (fun g' b hb => ih g' alpha b cp true hb)
            (get_possible_moves g) beta beta ⊤ none ⊤
            (min_eq_left le_top).symm hab (min_le_right beta ⊤) le_rfl
          exact hres
        · simp only [h1, h2, Bool.false_eq_true, if_true, if_false, ite_true, ite_false]
          rw [mmMaxLoop_val]
          have hres := abMaxLoop_bounds
            (fun g' a b => alpha_beta_aux d g' a b cp false)
            (fun g' => (minimax_aux d g' cp false).1) g cp beta
            (fun g' a ha => ih g' a beta cp false ha)
            (get_possible_moves g) alpha alpha ⊥ none ⊥
            (max_eq_left bot_le).symm hab bot_le le_rfl
          exact hres

/-- C1: with the root window `alpha = -inf`, `beta = +inf`, the pruned
search returns exactly the score of the exhaustive minimax over the same
move order, terminal cases and tie-break rule — pruning can only change
which nodes are visited, never the root score. -/
theorem alpha_beta_pruning_correct (g : Grid) (turn depth p : Nat)
    (hp : p = 1 ∨ p = 2) :
    (alpha_beta g turn depth ⊥ ⊤ p true).1 = (minimax_aux depth g p true).1 := by
  obtain ⟨h1, h2, h3⟩ := ab_mm_threeCases depth g ⊥ ⊤ p true bot_lt_top
  rw [alpha_beta]
  rcases lt_or_eq_of_le (bot_le : ⊥ ≤ (alpha_beta_aux depth g ⊥ ⊤ p true).1) with hb | hb
  · rcases lt_or_eq_of_le (le_top : (alpha_beta_aux depth g ⊥ ⊤ p true).1 ≤ ⊤) with ht | ht
    · exact h2 hb ht
    · exact le_antisymm (h3 ht.ge) (le_top.trans ht.ge)
  · exact le_antisymm (hb.ge.trans bot_le) (h1 hb.ge)

theorem alpha_beta_pruning_correct_witness :
    (1 = 1 ∨ 1 = 2)
      ∧ (alpha_beta gridTwoMoves 0 5 ⊥ ⊤ 1 true).1 = (minimax_aux 5 gridTwoMoves 1 true).1 :=
  ⟨Or.inl rfl, alpha_beta_pruning_correct gridTwoMoves 0 5 1 (Or.inl rfl)⟩
